import Mathlib

/-!
Shallow embedding of the `node-discord-alerts` library (TypeScript) and
verification of its specification claims.

Source files embedded here:
  * `src/utils/size-adjusting.ts` — limits, `truncate`, `chunk`,
    `alertToEmbeds` (segmenter + greedy packer), `fillBatch` (batcher);
  * `src/utils/get-color-for-level.ts` — `getColorForLevel`;
  * `src/client.ts` — the queue transformation performed by one
    `sendAlertsBatch` attempt;
  * `src/lazy-loading-client.ts` — the pre-initialization buffering and its
    replay (`processQueue`).

JavaScript strings are modelled as lists of characters (`Str`), so `length`,
`slice`, concatenation and equality are the usual list operations.  The two
sources of nondeterminism in `alertToEmbeds` — `randomUUID()` and
`new Date().toISOString()` — are passed in as explicit parameters
(`alertId`, `ts`).
-/

namespace DiscordAlerts

/-- JavaScript strings, modelled as lists of characters. -/
abbrev Str := List Char

/-- JavaScript `s.slice(0, e)` where the end index `e` is an arbitrary
integer: a nonnegative `e` is clamped to the length, a negative `e` counts
from the end of the string (clamped at 0). -/
def jsSliceTo (s : Str) (e : Int) : Str :=
  if e < 0 then s.take (s.length - e.natAbs) else s.take e.toNat

/-- Truthiness of an optional JavaScript string: `undefined` and the empty
string are falsy, every other string is truthy. -/
def jsTruthy : Option Str → Bool
  | some s => !s.isEmpty
  | none => false

/- The margin-adjusted limit table of `size-adjusting.ts` (`DISCORD_LIMITS`). -/
namespace DISCORD_LIMITS

def EMBED_TOTAL_CHARS : Nat := 6000 - 100

def EMBED_MAX_FIELDS : Nat := 25

def TITLE : Nat := 256 - 56

def DESCRIPTION : Nat := 4096 - 96

def FOOTER : Nat := 2048 - 48

def FIELD_NAME : Nat := 256 - 16

def FIELD_VALUE : Nat := 1024 - 24

def MAX_EMBEDS_PER_PAYLOAD : Nat := 10

end DISCORD_LIMITS

/-- The`truncate` helper of `size-adjusting.ts`.  The slice end
`max - TRUNCATED_SUFFIX.length` is computed in `Int` because in JavaScript it
may be negative, in which case `slice` counts from the end of the string. -/
def truncate (txt : Str) (max : Nat) (TRUNCATED_SUFFIX : Str) : Str :=
  if txt.length > max then
    jsSliceTo txt ((max : Int) - (TRUNCATED_SUFFIX.length : Int)) ++ TRUNCATED_SUFFIX
  else txt

/-- Loop body of `chunk`: the `Nat` argument bounds the number of remaining
loop iterations (`chunk` supplies `txt.length`, which always suffices because
every iteration consumes at least one character when `0 < size`; for
`size = 0` the source loop would not terminate, a situation none of its call
sites can produce since every chunk size used is a positive limit). -/
def chunkGo (size : Nat) : Nat → Str → List Str
  | _, [] => []
  | 0, _ => []
  | Nat.succ fuel, txt => txt.take size :: chunkGo size fuel (txt.drop size)

/-- The `chunk` helper of `size-adjusting.ts`: split a string into
consecutive slices of at most `size` characters (`!txt` yields `[]`). -/
def chunk (txt : Str) (size : Nat) : List Str :=
  chunkGo size txt.length txt

/-- The alert severity levels (`AlertInput['level']` in `types.ts`). -/
inductive Level where
  | info
  | error
  | warn
  | fatal
deriving DecidableEq, Repr

/-- Caller-supplied alert (`AlertInput` in `types.ts`).  The context mapping
is modelled as its entry list in iteration order, with the values already
passed through `stringify` (for plain strings `stringify` is the identity,
and none of the claims depends on the encoding of non-string values). -/
structure AlertInput where
  title : Option Str
  description : Option Str
  footer : Option Str
  context : Option (List (Str × Str))
  level : Option Level
deriving DecidableEq, Repr

/-- One `{name, value}` entry of `Embed['fields']`. -/
structure EmbedField where
  name : Str
  value : Str
deriving DecidableEq, Repr

/-- A Discord embed (`Embed` in `types.ts`).  `footer` models the optional
`{ text: string }` object by its text. -/
structure Embed where
  color : Option Nat
  timestamp : Str
  title : Option Str
  description : Option Str
  footer : Option Str
  fields : List EmbedField
deriving DecidableEq, Repr

/-- `EmbedWithCharCount = Embed & { charsCount: number }`. -/
structure EmbedWithCharCount extends Embed where
  charsCount : Nat
deriving DecidableEq, Repr

/-- `getColorForLevel` from `get-color-for-level.ts` (its `default` branch is
unreachable for the declared level type). -/
def getColorForLevel : Option Level → Option Nat
  | none => none
  | some Level.fatal => some 0xff0000
  | some Level.error => some 0xff6666
  | some Level.warn => some 0xffff00
  | some Level.info => some 0x0000ff

/-- The `Segment` tagged union local to `alertToEmbeds`. -/
inductive Segment where
  | title (content : Str)
  | description (content : Str)
  | footer (content : Str)
  | field (content : EmbedField)
deriving DecidableEq, Repr

/-- Name of the pre-seeded correlation field (`'alertId'`). -/
def alertIdFieldName : Str := ['a', 'l', 'e', 'r', 't', 'I', 'd']

/-- The title segment list: `prepared.title = alert.title ? truncate(...) :
undefined` followed by `if (prepared.title) segments.push(...)` — both
JavaScript truthiness checks are modelled. -/
def titlePart (o : Option Str) (sfx : Str) : List Segment :=
  match o with
  | some t =>
    if t.isEmpty then []
    else if (truncate t DISCORD_LIMITS.TITLE sfx).isEmpty then []
    else [Segment.title (truncate t DISCORD_LIMITS.TITLE sfx)]
  | none => []

/-- The footer segment list, with both truthiness checks, as for the title. -/
def footerPart (o : Option Str) (sfx : Str) : List Segment :=
  match o with
  | some f =>
    if f.isEmpty then []
    else if (truncate f DISCORD_LIMITS.FOOTER sfx).isEmpty then []
    else [Segment.footer (truncate f DISCORD_LIMITS.FOOTER sfx)]
  | none => []

/-- `prepared.fields`: one truncated `{name, value}` per context entry
(`[]` when `alert.context` is absent). -/
def fieldsPart (ctx : Option (List (Str × Str))) (sfx : Str) : List EmbedField :=
  match ctx with
  | none => []
  | some l =>
    l.map fun (kv : Str × Str) =>
      EmbedField.mk (truncate kv.1 DISCORD_LIMITS.FIELD_NAME sfx)
        (truncate kv.2 DISCORD_LIMITS.FIELD_VALUE sfx)

/-- Steps 0 and 1 of `alertToEmbeds`: sanitize the parts and lay them out as
the linear segment list (title, then description chunks, then fields, then
footer). -/
def toSegments (alert : AlertInput) (sfx : Str) : List Segment :=
  titlePart alert.title sfx ++
  (chunk (alert.description.getD []) DISCORD_LIMITS.DESCRIPTION).map Segment.description ++
  (fieldsPart alert.context sfx).map Segment.field ++
  footerPart alert.footer sfx

/-- Character cost a field contributes (`name.length + value.length`). -/
def fieldCost (f : EmbedField) : Nat := f.name.length + f.value.length

/-- Mutable state of the greedy packing loop in `alertToEmbeds`. -/
structure PackState where
  embeds : List EmbedWithCharCount
  current : Option Embed
  charCount : Nat
  fieldCount : Nat
deriving DecidableEq, Repr

/-- The embed object `startNewEmbed` assigns to `current`: severity color,
timestamp, and exactly the pre-seeded correlation field. -/
def freshEmbed (lvl : Option Level) (ts alertId : Str) : Embed :=
  { color := getColorForLevel lvl
    timestamp := ts
    title := none
    description := none
    footer := none
    fields := [EmbedField.mk alertIdFieldName alertId] }

/-- The `startNewEmbed` closure of `alertToEmbeds`. -/
def startNewEmbed (lvl : Option Level) (ts alertId : Str) (st : PackState) : PackState :=
  { embeds := st.embeds
    current := some (freshEmbed lvl ts alertId)
    charCount := alertIdFieldName.length + alertId.length
    fieldCount := 1 }

/-- The `commitEmbed` closure of `alertToEmbeds`. -/
def commitEmbed (st : PackState) : PackState :=
  match st.current with
  | some cur =>
    { embeds := st.embeds ++ [EmbedWithCharCount.mk cur st.charCount]
      current := none
      charCount := 0
      fieldCount := 0 }
  | none =>
    { embeds := st.embeds, current := none, charCount := 0, fieldCount := 0 }

/-- Assignment `current!.title = c; charCount += len` (the `none` branch is
unreachable: the source uses a non-null assertion there). -/
def setTitle (c : Str) (st : PackState) : PackState :=
  match st.current with
  | some cur =>
    { st with
        current := some { cur with title := some c }
        charCount := st.charCount + c.length }
  | none => st

/-- Assignment `current!.description = c; charCount += len` (the `none`
branch is unreachable in the source). -/
def setDescription (c : Str) (st : PackState) : PackState :=
  match st.current with
  | some cur =>
    { st with
        current := some { cur with description := some c }
        charCount := st.charCount + c.length }
  | none => st

/-- Assignment `current!.footer = { text: c }; charCount += len` (the `none`
branch is unreachable in the source). -/
def setFooter (c : Str) (st : PackState) : PackState :=
  match st.current with
  | some cur =>
    { st with
        current := some { cur with footer := some c }
        charCount := st.charCount + c.length }
  | none => st

/-- Statement `current!.fields!.push(f); fieldCount += 1; charCount +=
extraChars` (the `none` branch is unreachable in the source). -/
def pushField (f : EmbedField) (st : PackState) : PackState :=
  match st.current with
  | some cur =>
    { st with
        current := some { cur with fields := cur.fields ++ [f] }
        fieldCount := st.fieldCount + 1
        charCount := st.charCount + fieldCost f }
  | none => st

/-- The `ensure` closure of the greedy-fit loop: open a container when none
is open. -/
def ensureOpen (lvl : Option Level) (ts alertId : Str) (st : PackState) : PackState :=
  if st.current = none then startNewEmbed lvl ts alertId st else st

/-- One iteration of the greedy-fit loop of `alertToEmbeds`.  The title and
description slots test JavaScript truthiness of the stored string; the footer
slot stores an object, which is truthy exactly when present. -/
def processSegment (lvl : Option Level) (ts alertId : Str) (st : PackState) :
    Segment → PackState
  | Segment.title c =>
    setTitle c
      (if jsTruthy ((ensureOpen lvl ts alertId st).current.bind Embed.title) = true ∨
          (ensureOpen lvl ts alertId st).charCount + c.length >
            DISCORD_LIMITS.EMBED_TOTAL_CHARS then
        startNewEmbed lvl ts alertId (commitEmbed (ensureOpen lvl ts alertId st))
      else ensureOpen lvl ts alertId st)
  | Segment.description c =>
    setDescription c
      (if jsTruthy ((ensureOpen lvl ts alertId st).current.bind Embed.description) = true ∨
          (ensureOpen lvl ts alertId st).charCount + c.length >
            DISCORD_LIMITS.EMBED_TOTAL_CHARS then
        startNewEmbed lvl ts alertId (commitEmbed (ensureOpen lvl ts alertId st))
      else ensureOpen lvl ts alertId st)
  | Segment.footer c =>
    setFooter c
      (if ((ensureOpen lvl ts alertId st).current.bind Embed.footer).isSome = true ∨
          (ensureOpen lvl ts alertId st).charCount + c.length >
            DISCORD_LIMITS.EMBED_TOTAL_CHARS then
        startNewEmbed lvl ts alertId (commitEmbed (ensureOpen lvl ts alertId st))
      else ensureOpen lvl ts alertId st)
  | Segment.field f =>
    pushField f
      (if st.current = none ∨ st.fieldCount ≥ DISCORD_LIMITS.EMBED_MAX_FIELDS ∨
          st.charCount + fieldCost f > DISCORD_LIMITS.EMBED_TOTAL_CHARS then
        startNewEmbed lvl ts alertId (commitEmbed st)
      else st)

/-- `alertToEmbeds` from `size-adjusting.ts`: segment the alert, greedily
pack the segments, and commit the unfinished embed (if any).  `alertId`
stands for the `randomUUID()` call and `ts` for `new Date().toISOString()`. -/
def alertToEmbeds (alert : AlertInput) (sfx alertId ts : Str) :
    List EmbedWithCharCount :=
  (commitEmbed
    ((toSegments alert sfx).foldl (processSegment alert.level ts alertId)
      (PackState.mk [] none 0 0))).embeds

/-- Loop of `fillBatch`, with the accumulator and the batch built so far made
explicit. -/
def fillBatchGo (batchSize : Nat) :
    List EmbedWithCharCount → List Embed → Nat → List Embed
  | [], batch, _ => batch
  | e :: rest, batch, accumulatedChars =>
    if batch.length ≥ batchSize then batch
    else
      let acc := accumulatedChars + e.charsCount
      if acc > DISCORD_LIMITS.EMBED_TOTAL_CHARS then batch
      else fillBatchGo batchSize rest (batch ++ [e.toEmbed]) acc

/-- `fillBatch` from `size-adjusting.ts`: select a prefix of the queue that
fits the per-payload count and aggregate char limits, stripping the
`charsCount` tag from each selected embed. -/
def fillBatch (source : List EmbedWithCharCount) (batchSize : Nat) : List Embed :=
  if source.length = 0 then [] else fillBatchGo batchSize source [] 0

/-- `this.BATCH_SIZE` in `client.ts`. -/
def BATCH_SIZE : Nat := 10

/-- Leading decimal digits of a character list. -/
def takeDigits : List Char → List Nat
  | [] => []
  | c :: cs =>
    if '0' ≤ c ∧ c ≤ '9' then (c.toNat - Char.toNat '0') :: takeDigits cs
    else []

/-- JavaScript `parseInt(s)` restricted to the shapes a `Retry-After` header
value takes (an optional sign followed by decimal digits; no leading
whitespace and no radix prefixes): parses the longest leading digit run and
yields `none` for `NaN` (no leading digit). -/
def jsParseInt (s : Str) : Option Int :=
  let core : List Char → Option Int := fun cs =>
    match takeDigits cs with
    | [] => none
    | ds => some (ds.foldl (fun a d => a * 10 + (d : Int)) 0)
  match s with
  | '-' :: rest => (core rest).map Int.neg
  | '+' :: rest => core rest
  | _ => core s

/-- Outcome of the `fetch` call in `sendAlertsBatch`: an ok response, an
HTTP 429 carrying the raw `Retry-After` header (`none` models a missing
header), or any other non-ok response. -/
inductive Response where
  | ok
  | rateLimited (retryAfterHeader : Option Str)
  | failed
deriving DecidableEq, Repr

/-- A JavaScript millisecond count, which may be `NaN` (the product of
`parseInt` on an unparseable header with `1000`). -/
inductive Delay where
  | ms (n : Int)
  | nan
deriving DecidableEq, Repr

/-- Result of one `sendAlertsBatch` attempt: the queue afterwards, the batch
handed to the transport (or logged in disabled mode), and the retry delay
scheduled by the rate-limit branch (`none` when that branch was not taken). -/
structure SendOutcome where
  embeds : List EmbedWithCharCount
  batch : List Embed
  retryDelay : Option Delay
deriving DecidableEq, Repr

/-- Queue transformation performed by one `sendAlertsBatch` attempt in
`client.ts`, given the transport outcome `resp` (ignored in disabled mode,
where no call is made).  The source statement
`this.embeds.slice(0, batch.length);` computes a slice and discards it — a
no-op — so it has no counterpart here; afterwards the source runs
`this.embeds = this.embeds.slice(this.BATCH_SIZE)` on the success, failure
and disabled paths, while the 429 path returns before it. -/
def sendAlertsBatch (disabled : Bool) (embeds : List EmbedWithCharCount)
    (resp : Response) : SendOutcome :=
  if embeds.length = 0 then SendOutcome.mk embeds [] none
  else
    let batch := fillBatch embeds BATCH_SIZE
    if disabled then SendOutcome.mk (embeds.drop BATCH_SIZE) batch none
    else
      match resp with
      | Response.rateLimited hdr =>
        let retryAfterSeconds : Option Int :=
          if jsTruthy hdr then jsParseInt (hdr.getD []) else some 30
        let timeoutMs : Delay :=
          match retryAfterSeconds with
          | some n => Delay.ms (n * 1000)
          | none => Delay.nan
        SendOutcome.mk embeds batch (some timeoutMs)
      | _ => SendOutcome.mk (embeds.drop BATCH_SIZE) batch none

/-- A call made on the lazy-loading wrapper before `init`. -/
inductive PreEvent where
  | addAlert (a : AlertInput)
  | flush
deriving DecidableEq, Repr

/-- A call the wrapper makes on the core `AlertsClient`. -/
inductive CoreCall where
  | addAlert (a : AlertInput)
  | flush
deriving DecidableEq, Repr

/-- Pre-initialization state of `LazyLoadingAlertsClient`: the buffered
alerts and whether `flush` was requested. -/
structure LazyState where
  queuedAlerts : List AlertInput
  flushRequested : Bool
deriving DecidableEq, Repr

/-- Effect of one pre-initialization call on the wrapper state
(`addAlert` pushes onto `queuedAlerts`; `flush` sets `flushRequested`). -/
def applyPre (st : LazyState) : PreEvent → LazyState
  | PreEvent.addAlert a => { st with queuedAlerts := st.queuedAlerts ++ [a] }
  | PreEvent.flush => { st with flushRequested := true }

/-- Wrapper state after a sequence of pre-initialization calls. -/
def preRun (evs : List PreEvent) : LazyState :=
  evs.foldl applyPre (LazyState.mk [] false)

/-- The sequence of calls `processQueue` makes on the freshly constructed
core client when `init` runs (the client is non-null at that point, so the
early return fires exactly when `queuedAlerts` is empty). -/
def processQueue (st : LazyState) : List CoreCall :=
  if st.queuedAlerts.length = 0 then []
  else
    st.queuedAlerts.map CoreCall.addAlert ++
      (if st.flushRequested then [CoreCall.flush] else [])

/-- Length of an optional string (`undefined` contributes 0). -/
def optLen : Option Str → Nat
  | some s => s.length
  | none => 0

/-- Total character cost of an embed: title + description + footer text +
every field name and value (the correlation field included). -/
def embedCost (e : Embed) : Nat :=
  optLen e.title + optLen e.description + optLen e.footer +
    (e.fields.map fieldCost).sum

/-- Number of titles held by an embed (0 or 1 — the slot is single-valued). -/
def titleCount (e : Embed) : Nat :=
  match e.title with
  | some _ => 1
  | none => 0

/-- Number of descriptions held by an embed (0 or 1). -/
def descriptionCount (e : Embed) : Nat :=
  match e.description with
  | some _ => 1
  | none => 0

/-- Number of footers held by an embed (0 or 1). -/
def footerCount (e : Embed) : Nat :=
  match e.footer with
  | some _ => 1
  | none => 0

/-- Extract the content of a description segment. -/
def descOf : Segment → Option Str
  | Segment.description c => some c
  | _ => none

/-- The description-chunk segments produced by the Segmenter, in order. -/
def descriptionSegments (alert : AlertInput) (sfx : Str) : List Str :=
  (toSegments alert sfx).filterMap descOf

/-- Character length of a segment (for a field segment, the cost its name
and value contribute). -/
def segLen : Segment → Nat
  | Segment.title c => c.length
  | Segment.description c => c.length
  | Segment.footer c => c.length
  | Segment.field f => fieldCost f

/-- Sample truncation suffix `'...'`. -/
def sampleSuffix : Str := ['.', '.', '.']

/-- Sample 36-character correlation identifier (stands for a `randomUUID()`
value, which always has 36 characters). -/
def sampleAlertId : Str := List.replicate 36 'u'

/-- Sample timestamp string. -/
def sampleTs : Str := ['T']

/-- A committed container of frozen cost 5000 (title `a`). -/
def sampleBigA : EmbedWithCharCount :=
  EmbedWithCharCount.mk (Embed.mk none [] (some ['a']) none none []) 5000

/-- A committed container of frozen cost 5000 (title `b`). -/
def sampleBigB : EmbedWithCharCount :=
  EmbedWithCharCount.mk (Embed.mk none [] (some ['b']) none none []) 5000

/-- A contentless alert. -/
def sampleEmptyAlert : AlertInput := AlertInput.mk none none none none none

lemma truncate_of_le (t : Str) (max : Nat) (sfx : Str) (h : t.length ≤ max) :
    truncate t max sfx = t := by
  have hn : ¬ t.length > max := by omega
  simp [truncate, hn]

lemma truncate_of_gt (t : Str) (max : Nat) (sfx : Str) (hs : sfx.length ≤ max)
    (ht : max < t.length) :
    truncate t max sfx = t.take (max - sfx.length) ++ sfx := by
  have h1 : ¬ ((max : Int) - (sfx.length : Int) < 0) := by omega
  have h2 : ((max : Int) - (sfx.length : Int)).toNat = max - sfx.length := by omega
  simp [truncate, jsSliceTo, ht, h1, h2]

lemma truncate_length_of_gt (t : Str) (max : Nat) (sfx : Str)
    (hs : sfx.length ≤ max) (ht : max < t.length) :
    (truncate t max sfx).length = max := by
  rw [truncate_of_gt t max sfx hs ht]
  simp [List.length_take]
  omega

lemma truncate_length_le (t : Str) (max : Nat) (sfx : Str) (hs : sfx.length ≤ max) :
    (truncate t max sfx).length ≤ max := by
  by_cases ht : max < t.length
  · exact (truncate_length_of_gt t max sfx hs ht).le
  · rw [truncate_of_le t max sfx (by omega)]; omega

lemma chunkGo_join (size : Nat) (hsize : 0 < size) :
    ∀ (fuel : Nat) (txt : Str), txt.length ≤ fuel →
      (chunkGo size fuel txt).flatten = txt := by
  intro fuel
  induction fuel with
  | zero =>
    intro txt h
    cases txt with
    | nil => rfl
    | cons c cs => simp at h
  | succ n ih =>
    intro txt h
    cases txt with
    | nil => rfl
    | cons c cs =>
      show ((c :: cs).take size :: chunkGo size n ((c :: cs).drop size)).flatten = c :: cs
      have hd : ((c :: cs).drop size).length = (c :: cs).length - size :=
        List.length_drop size (c :: cs)
      have hlen2 : (c :: cs).length = cs.length + 1 := rfl
      rw [hlen2] at h hd
      rw [List.flatten_cons, ih ((c :: cs).drop size) (by rw [hd]; omega)]
      exact List.take_append_drop size (c :: cs)

lemma chunk_join (txt : Str) (size : Nat) (hsize : 0 < size) :
    (chunk txt size).flatten = txt :=
  chunkGo_join size hsize txt.length txt le_rfl

lemma chunkGo_length_le (size : Nat) :
    ∀ (fuel : Nat) (txt : Str) (c : Str), c ∈ chunkGo size fuel txt → c.length ≤ size := by
  intro fuel
  induction fuel with
  | zero =>
    intro txt c hc
    cases txt with
    | nil => simp [chunkGo] at hc
    | cons x xs => simp [chunkGo] at hc
  | succ n ih =>
    intro txt c hc
    cases txt with
    | nil => simp [chunkGo] at hc
    | cons x xs =>
      rcases List.mem_cons.mp hc with hc | hc
      · subst hc; simp [List.length_take]
      · exact ih _ _ hc

lemma chunk_length_le (txt : Str) (size : Nat) (c : Str) (hc : c ∈ chunk txt size) :
    c.length ≤ size :=
  chunkGo_length_le size txt.length txt c hc

/-- C8: for suffixes no longer than the budget, `truncate` leaves short text
unchanged and cuts long text to the first `maxLen - suffix.length` characters
followed by the suffix, for a total length of exactly `maxLen`. -/
theorem c8_truncate_contract (text : Str) (maxLen : Nat) (suffix : Str)
    (hs : suffix.length ≤ maxLen) :
    (text.length ≤ maxLen → truncate text maxLen suffix = text) ∧
    (maxLen < text.length →
      truncate text maxLen suffix = text.take (maxLen - suffix.length) ++ suffix ∧
      (truncate text maxLen suffix).length = maxLen) :=
  ⟨fun h => truncate_of_le text maxLen suffix h,
   fun h => ⟨truncate_of_gt text maxLen suffix hs h,
             truncate_length_of_gt text maxLen suffix hs h⟩⟩

set_option maxRecDepth 4000 in
/-- C8 witness: a 300-character title with suffix `...` and title budget 200
is cut to length exactly 200 and ends in `...`. -/
theorem c8_truncate_contract_witness :
    (sampleSuffix.length ≤ 200) ∧
    (truncate (List.replicate 300 'A') 200 sampleSuffix).length = 200 ∧
    (truncate (List.replicate 300 'A') 200 sampleSuffix).drop 197 = sampleSuffix :=
  ⟨by decide,
   ((c8_truncate_contract (List.replicate 300 'A') 200 sampleSuffix
      (by decide)).2 (by decide)).2,
   by decide⟩

/-- C10: with a suffix strictly longer than `maxLen` and text longer than
`maxLen`, the slice end `maxLen - suffix.length` is negative, JavaScript
`slice` counts it from the end of the string, and `truncate` returns a string
strictly longer than `maxLen`: all but the last character of the text is kept
and the whole suffix is appended. -/
theorem c10_truncate_negative_slice :
    (['X', 'X', 'X'] : Str).length > 2 ∧
    (['a', 'b', 'c', 'd', 'e', 'f'] : Str).length > 2 ∧
    truncate ['a', 'b', 'c', 'd', 'e', 'f'] 2 ['X', 'X', 'X'] =
      ['a', 'b', 'c', 'd', 'e'] ++ ['X', 'X', 'X'] ∧
    (truncate ['a', 'b', 'c', 'd', 'e', 'f'] 2 ['X', 'X', 'X']).length > 2 := by
  decide

lemma filterMap_descOf_titlePart (o : Option Str) (sfx : Str) :
    (titlePart o sfx).filterMap descOf = [] := by
  unfold titlePart
  split <;> first
  | rfl
  | (split_ifs <;> rfl)

lemma filterMap_descOf_footerPart (o : Option Str) (sfx : Str) :
    (footerPart o sfx).filterMap descOf = [] := by
  unfold footerPart
  split <;> first
  | rfl
  | (split_ifs <;> rfl)

lemma filterMap_descOf_map_description (l : List Str) :
    (l.map Segment.description).filterMap descOf = l := by
  induction l with
  | nil => rfl
  | cons x xs ih => simp only [List.map_cons, List.filterMap_cons, descOf, ih]

lemma filterMap_descOf_map_field (l : List EmbedField) :
    (l.map Segment.field).filterMap descOf = [] := by
  induction l with
  | nil => rfl
  | cons x xs ih => simp only [List.map_cons, List.filterMap_cons, descOf, ih]

lemma descriptionSegments_eq (alert : AlertInput) (sfx : Str) :
    descriptionSegments alert sfx =
      chunk (alert.description.getD []) DISCORD_LIMITS.DESCRIPTION := by
  unfold descriptionSegments toSegments
  rw [List.filterMap_append, List.filterMap_append, List.filterMap_append,
    filterMap_descOf_titlePart, filterMap_descOf_footerPart,
    filterMap_descOf_map_description, filterMap_descOf_map_field]
  simp

/-- C9: the description is split, never truncated: concatenating the
Segmenter's description-chunk segments in order reproduces the original
description exactly, and an empty description yields zero segments. -/
theorem c9_description_lossless (alert : AlertInput) (sfx : Str) (d : Str)
    (hd : alert.description = some d) :
    (descriptionSegments alert sfx).flatten = d ∧
    (d = [] → descriptionSegments alert sfx = []) := by
  have he := descriptionSegments_eq alert sfx
  rw [hd] at he
  simp only [Option.getD_some] at he
  refine ⟨?_, ?_⟩
  · rw [he]
    exact chunk_join d DISCORD_LIMITS.DESCRIPTION (by decide)
  · intro h
    subst h
    rw [he]
    rfl

/-- C9 witness: the alert whose description is `hi` has description segments
concatenating back to `hi`. -/
theorem c9_description_lossless_witness :
    (descriptionSegments (AlertInput.mk none (some ['h', 'i']) none none none)
        sampleSuffix).flatten = ['h', 'i'] :=
  (c9_description_lossless (AlertInput.mk none (some ['h', 'i']) none none none)
    sampleSuffix ['h', 'i'] rfl).1

lemma fillBatchGo_spec (batchSize : Nat) :
    ∀ (src : List EmbedWithCharCount) (batch : List Embed) (acc : Nat),
      acc ≤ DISCORD_LIMITS.EMBED_TOTAL_CHARS →
      ∃ k, fillBatchGo batchSize src batch acc =
          batch ++ (src.take k).map EmbedWithCharCount.toEmbed ∧
        k ≤ batchSize - batch.length ∧
        acc + ((src.take k).map EmbedWithCharCount.charsCount).sum ≤
          DISCORD_LIMITS.EMBED_TOTAL_CHARS := by
  intro src
  induction src with
  | nil =>
    intro batch acc hacc
    exact ⟨0, by simp [fillBatchGo], by omega, by simpa using hacc⟩
  | cons e rest ih =>
    intro batch acc hacc
    by_cases hb : batch.length ≥ batchSize
    · exact ⟨0, by simp [fillBatchGo, hb], by omega, by simpa using hacc⟩
    · by_cases hover : acc + e.charsCount > DISCORD_LIMITS.EMBED_TOTAL_CHARS
      · exact ⟨0, by simp [fillBatchGo, hb, hover], by omega, by simpa using hacc⟩
      · obtain ⟨k, h1, h2, h3⟩ :=
          ih (batch ++ [e.toEmbed]) (acc + e.charsCount) (by omega)
        have hstep : fillBatchGo batchSize (e :: rest) batch acc =
            fillBatchGo batchSize rest (batch ++ [e.toEmbed]) (acc + e.charsCount) := by
          simp [fillBatchGo, hb, hover]
        refine ⟨k + 1, ?_, ?_, ?_⟩
        · rw [hstep, h1]
          simp [List.take_succ_cons]
        · simp only [List.length_append, List.length_cons, List.length_nil] at h2
          omega
        · simp only [List.take_succ_cons, List.map_cons, List.sum_cons]
          omega

/-- C7: the Batcher returns a prefix of the queue of at most `batchSize`
containers whose frozen costs sum to at most the payload char budget; it
returns the empty list when the queue is empty and when the first container
alone exceeds the budget. -/
theorem c7_fillBatch_spec (source : List EmbedWithCharCount) (batchSize : Nat) :
    (∃ k, fillBatch source batchSize = (source.take k).map EmbedWithCharCount.toEmbed ∧
        k ≤ batchSize ∧
        ((source.take k).map EmbedWithCharCount.charsCount).sum ≤
          DISCORD_LIMITS.EMBED_TOTAL_CHARS) ∧
    (source = [] → fillBatch source batchSize = []) ∧
    (∀ e rest, source = e :: rest →
        DISCORD_LIMITS.EMBED_TOTAL_CHARS < e.charsCount →
        fillBatch source batchSize = []) := by
  refine ⟨?_, ?_, ?_⟩
  · cases hsrc : source with
    | nil => exact ⟨0, by simp [fillBatch], by omega, by simp⟩
    | cons e rest =>
      obtain ⟨k, h1, h2, h3⟩ := fillBatchGo_spec batchSize (e :: rest) [] 0 (by omega)
      refine ⟨k, ?_, by simpa using h2, by simpa using h3⟩
      have : fillBatch (e :: rest) batchSize = fillBatchGo batchSize (e :: rest) [] 0 := by
        simp [fillBatch]
      rw [this, h1]
      simp
  · intro h
    subst h
    rfl
  · intro e rest hsrc hc
    subst hsrc
    have : fillBatch (e :: rest) batchSize = fillBatchGo batchSize (e :: rest) [] 0 := by
      simp [fillBatch]
    rw [this]
    unfold fillBatchGo
    split
    · rfl
    · show (if 0 + e.charsCount > DISCORD_LIMITS.EMBED_TOTAL_CHARS then ([] : List Embed)
        else fillBatchGo batchSize rest ([] ++ [e.toEmbed]) (0 + e.charsCount)) = []
      rw [if_pos (by omega)]

/-- C7 witness: on the two-container queue of frozen costs 5000 each with max
count 10, the Batcher selects a prefix within both limits. -/
theorem c7_fillBatch_spec_witness :
    ∃ k, fillBatch [sampleBigA, sampleBigB] 10 =
        ([sampleBigA, sampleBigB].take k).map EmbedWithCharCount.toEmbed ∧
      k ≤ 10 ∧
      (([sampleBigA, sampleBigB].take k).map EmbedWithCharCount.charsCount).sum ≤
        DISCORD_LIMITS.EMBED_TOTAL_CHARS :=
  (c7_fillBatch_spec [sampleBigA, sampleBigB] 10).1

/-- C2 counterexample: packing the contentless alert produces no container at
all (the greedy loop never opens one), not one correlation-only container. -/
theorem c2_counterexample :
    alertToEmbeds sampleEmptyAlert sampleSuffix sampleAlertId sampleTs = [] ∧
    (alertToEmbeds sampleEmptyAlert sampleSuffix sampleAlertId sampleTs).length ≠ 1 := by
  decide

/-- C2 (amended): for every alert with no title, no description, no footer
and no context, packing yields zero containers — the loop body never runs, so
no container (not even a correlation-only one) is created. -/
theorem c2_empty_alert_no_containers (lvl : Option Level) (sfx alertId ts : Str) :
    alertToEmbeds (AlertInput.mk none none none none lvl) sfx alertId ts = [] := rfl

/-- C1 (bug evaluation): with two queued containers of frozen cost 5000 each,
the Batcher selects only the first (5000 + 5000 exceeds the 5900 payload
budget), yet after an ok, failed or disabled attempt the queue update
`this.embeds = this.embeds.slice(this.BATCH_SIZE)` empties the whole queue,
dropping the unsent second container; removing exactly the selected batch
would have left it queued. -/
theorem c1_send_drops_unsent :
    (fillBatch [sampleBigA, sampleBigB] BATCH_SIZE).length = 1 ∧
    (sendAlertsBatch false [sampleBigA, sampleBigB] Response.ok).embeds = [] ∧
    (sendAlertsBatch false [sampleBigA, sampleBigB] Response.failed).embeds = [] ∧
    (sendAlertsBatch true [sampleBigA, sampleBigB] Response.ok).embeds = [] ∧
    [sampleBigA, sampleBigB].drop
        (fillBatch [sampleBigA, sampleBigB] BATCH_SIZE).length = [sampleBigB] := by
  decide

/-- C4 counterexample: a 429 whose `Retry-After` header is `abc` (present but
unparseable) schedules a NaN delay, not the claimed 30-second fallback. -/
theorem c4_counterexample :
    (sendAlertsBatch false [sampleBigA]
        (Response.rateLimited (some ['a', 'b', 'c']))).retryDelay = some Delay.nan ∧
    Delay.nan ≠ Delay.ms (30 * 1000) := by decide

/-- C4 (amended): on HTTP 429 no container is removed from the queue; the
retry is scheduled after `Retry-After` seconds when the header parses to a
number, after 30 seconds when the header is absent or empty, and after a NaN
delay (not 30 seconds) when the header is present, non-empty and
unparseable. -/
theorem c4_rate_limited (embeds : List EmbedWithCharCount) (hdr : Option Str)
    (hne : embeds ≠ []) :
    (sendAlertsBatch false embeds (Response.rateLimited hdr)).embeds = embeds ∧
    ((hdr = none ∨ hdr = some []) →
      (sendAlertsBatch false embeds (Response.rateLimited hdr)).retryDelay =
        some (Delay.ms (30 * 1000))) ∧
    (∀ h n, hdr = some h → jsParseInt h = some n →
      (sendAlertsBatch false embeds (Response.rateLimited hdr)).retryDelay =
        some (Delay.ms (n * 1000))) ∧
    (∀ h, hdr = some h → h ≠ [] → jsParseInt h = none →
      (sendAlertsBatch false embeds (Response.rateLimited hdr)).retryDelay =
        some Delay.nan) := by
  have hlen : ¬ embeds.length = 0 := by
    simpa [List.length_eq_zero] using hne
  refine ⟨?_, ?_, ?_, ?_⟩
  · simp [sendAlertsBatch, hlen]
  · rintro (rfl | rfl) <;> simp [sendAlertsBatch, hlen, jsTruthy]
  · rintro h n rfl hp
    have hh : ¬ h = [] := by
      intro habs
      subst habs
      simp [jsParseInt, takeDigits] at hp
    have hhe : h.isEmpty = false := by
      simpa [List.isEmpty_iff] using hh
    simp [sendAlertsBatch, hlen, jsTruthy, hhe, hp]
  · rintro h rfl hne2 hp
    have hhe : h.isEmpty = false := by
      simpa [List.isEmpty_iff] using hne2
    simp [sendAlertsBatch, hlen, jsTruthy, hhe, hp]

/-- C4 witness: a 429 with header `2` leaves the singleton queue unchanged
and schedules the retry after 2 seconds. -/
theorem c4_rate_limited_witness :
    (sendAlertsBatch false [sampleBigA] (Response.rateLimited (some ['2']))).embeds =
      [sampleBigA] ∧
    (sendAlertsBatch false [sampleBigA] (Response.rateLimited (some ['2']))).retryDelay =
      some (Delay.ms (2 * 1000)) :=
  ⟨(c4_rate_limited [sampleBigA] (some ['2']) (by decide)).1,
   (c4_rate_limited [sampleBigA] (some ['2']) (by decide)).2.2.1 ['2'] 2 rfl (by decide)⟩

/-- C5 (bug evaluation): when `flush` was called before initialization but no
alert was buffered, `processQueue` returns early on the empty queue and the
core client's `flush` is never invoked even though `flushRequested` is set;
with at least one buffered alert the replay and the trailing flush do happen
in order. -/
theorem c5_flush_only_lost :
    (preRun [PreEvent.flush]).flushRequested = true ∧
    processQueue (preRun [PreEvent.flush]) = [] ∧
    processQueue (preRun [PreEvent.addAlert sampleEmptyAlert, PreEvent.flush]) =
      [CoreCall.addAlert sampleEmptyAlert, CoreCall.flush] := by
  decide

lemma EMBED_TOTAL_CHARS_eq : DISCORD_LIMITS.EMBED_TOTAL_CHARS = 5900 := rfl

lemma EMBED_MAX_FIELDS_eq : DISCORD_LIMITS.EMBED_MAX_FIELDS = 25 := rfl

lemma TITLE_eq : DISCORD_LIMITS.TITLE = 200 := rfl

lemma DESCRIPTION_eq : DISCORD_LIMITS.DESCRIPTION = 4000 := rfl

lemma FOOTER_eq : DISCORD_LIMITS.FOOTER = 2000 := rfl

lemma FIELD_NAME_eq : DISCORD_LIMITS.FIELD_NAME = 240 := rfl

lemma FIELD_VALUE_eq : DISCORD_LIMITS.FIELD_VALUE = 1000 := rfl

lemma alertIdFieldName_length : alertIdFieldName.length = 7 := rfl

lemma optLen_of_not_truthy (o : Option Str) (h : jsTruthy o = false) :
    optLen o = 0 := by
  cases o with
  | none => rfl
  | some t =>
    simp [jsTruthy, List.isEmpty_iff] at h
    simp [optLen, h]

lemma optLen_of_isSome_false (o : Option Str) (h : o.isSome = false) :
    optLen o = 0 := by
  cases o with
  | none => rfl
  | some t => simp at h

lemma embedCost_freshEmbed (lvl : Option Level) (ts alertId : Str) :
    embedCost (freshEmbed lvl ts alertId) =
      alertIdFieldName.length + alertId.length := by
  simp [embedCost, freshEmbed, optLen, fieldCost]

lemma embedCost_set_title (cur : Embed) (c : Str) (h : optLen cur.title = 0) :
    embedCost { cur with title := some c } = embedCost cur + c.length := by
  simp only [embedCost, optLen] at h ⊢
  omega

lemma embedCost_set_description (cur : Embed) (c : Str)
    (h : optLen cur.description = 0) :
    embedCost { cur with description := some c } = embedCost cur + c.length := by
  simp only [embedCost, optLen] at h ⊢
  omega

lemma embedCost_set_footer (cur : Embed) (c : Str) (h : optLen cur.footer = 0) :
    embedCost { cur with footer := some c } = embedCost cur + c.length := by
  simp only [embedCost, optLen] at h ⊢
  omega

lemma embedCost_push_field (cur : Embed) (f : EmbedField) :
    embedCost { cur with fields := cur.fields ++ [f] } =
      embedCost cur + fieldCost f := by
  simp only [embedCost, List.map_append, List.sum_append, List.map_cons,
    List.map_nil, List.sum_cons, List.sum_nil]
  omega

lemma setTitle_eq (st : PackState) (cur : Embed) (c : Str)
    (hcur : st.current = some cur) :
    setTitle c st =
      { st with current := some { cur with title := some c }
                charCount := st.charCount + c.length } := by
  unfold setTitle
  rw [hcur]

lemma setDescription_eq (st : PackState) (cur : Embed) (c : Str)
    (hcur : st.current = some cur) :
    setDescription c st =
      { st with current := some { cur with description := some c }
                charCount := st.charCount + c.length } := by
  unfold setDescription
  rw [hcur]

lemma setFooter_eq (st : PackState) (cur : Embed) (c : Str)
    (hcur : st.current = some cur) :
    setFooter c st =
      { st with current := some { cur with footer := some c }
                charCount := st.charCount + c.length } := by
  unfold setFooter
  rw [hcur]

lemma pushField_eq (st : PackState) (cur : Embed) (f : EmbedField)
    (hcur : st.current = some cur) :
    pushField f st =
      { st with current := some { cur with fields := cur.fields ++ [f] }
                fieldCount := st.fieldCount + 1
                charCount := st.charCount + fieldCost f } := by
  unfold pushField
  rw [hcur]

/-- Invariant of the greedy packing loop: every committed embed obeys the
char budget and the field-count limit, and the open container's two counters
agree with its actual contents and obey both limits. -/
structure PackInv (st : PackState) : Prop where
  committed_cost : ∀ e ∈ st.embeds,
    embedCost e.toEmbed ≤ DISCORD_LIMITS.EMBED_TOTAL_CHARS
  committed_fields : ∀ e ∈ st.embeds,
    e.toEmbed.fields.length ≤ DISCORD_LIMITS.EMBED_MAX_FIELDS
  current_cost : ∀ cur, st.current = some cur → embedCost cur = st.charCount
  current_fields : ∀ cur, st.current = some cur → cur.fields.length = st.fieldCount
  cc_le : st.current.isSome = true → st.charCount ≤ DISCORD_LIMITS.EMBED_TOTAL_CHARS
  fc_le : st.current.isSome = true → st.fieldCount ≤ DISCORD_LIMITS.EMBED_MAX_FIELDS

lemma packInv_init : PackInv (PackState.mk [] none 0 0) := by
  constructor <;> simp

lemma packInv_startNewEmbed (lvl : Option Level) (ts alertId : Str)
    (hid : alertId.length = 36) (st : PackState) (h : PackInv st) :
    PackInv (startNewEmbed lvl ts alertId st) := by
  unfold startNewEmbed
  constructor
  · exact h.committed_cost
  · exact h.committed_fields
  · intro cur hcur
    simp only [Option.some.injEq] at hcur
    subst hcur
    exact embedCost_freshEmbed lvl ts alertId
  · intro cur hcur
    simp only [Option.some.injEq] at hcur
    subst hcur
    rfl
  · intro _
    show alertIdFieldName.length + alertId.length ≤ DISCORD_LIMITS.EMBED_TOTAL_CHARS
    rw [alertIdFieldName_length, hid, EMBED_TOTAL_CHARS_eq]
    omega
  · intro _
    show (1 : Nat) ≤ DISCORD_LIMITS.EMBED_MAX_FIELDS
    rw [EMBED_MAX_FIELDS_eq]
    omega

lemma packInv_commitEmbed (st : PackState) (h : PackInv st) :
    PackInv (commitEmbed st) := by
  unfold commitEmbed
  cases hcur : st.current with
  | none =>
    constructor
    · exact h.committed_cost
    · exact h.committed_fields
    · intro cur hc
      simp at hc
    · intro cur hc
      simp at hc
    · intro hc
      simp at hc
    · intro hc
      simp at hc
  | some cur =>
    have hsome : st.current.isSome = true := by rw [hcur]; rfl
    constructor
    · intro e he
      rcases List.mem_append.mp he with he | he
      · exact h.committed_cost e he
      · simp only [List.mem_singleton] at he
        subst he
        show embedCost cur ≤ DISCORD_LIMITS.EMBED_TOTAL_CHARS
        rw [h.current_cost cur hcur]
        exact h.cc_le hsome
    · intro e he
      rcases List.mem_append.mp he with he | he
      · exact h.committed_fields e he
      · simp only [List.mem_singleton] at he
        subst he
        show cur.fields.length ≤ DISCORD_LIMITS.EMBED_MAX_FIELDS
        rw [h.current_fields cur hcur]
        exact h.fc_le hsome
    · intro c hc
      simp at hc
    · intro c hc
      simp at hc
    · intro hc
      simp at hc
    · intro hc
      simp at hc

lemma packInv_ensureOpen (lvl : Option Level) (ts alertId : Str)
    (hid : alertId.length = 36) (st : PackState) (h : PackInv st) :
    PackInv (ensureOpen lvl ts alertId st) := by
  unfold ensureOpen
  split
  · exact packInv_startNewEmbed lvl ts alertId hid st h
  · exact h

lemma ensureOpen_current_isSome (lvl : Option Level) (ts alertId : Str)
    (st : PackState) :
    (ensureOpen lvl ts alertId st).current.isSome = true := by
  unfold ensureOpen
  split
  · rfl
  · rename_i hne
    cases hcs : st.current with
    | none => exact absurd hcs hne
    | some cur => rfl

lemma packInv_setTitle (st : PackState) (c : Str) (cur : Embed)
    (hcur : st.current = some cur) (h : PackInv st)
    (ht : optLen cur.title = 0)
    (hcc : st.charCount + c.length ≤ DISCORD_LIMITS.EMBED_TOTAL_CHARS) :
    PackInv (setTitle c st) := by
  rw [setTitle_eq st cur c hcur]
  constructor
  · exact h.committed_cost
  · exact h.committed_fields
  · intro cur2 hcur2
    simp only [Option.some.injEq] at hcur2
    subst hcur2
    rw [embedCost_set_title cur c ht, h.current_cost cur hcur]
  · intro cur2 hcur2
    simp only [Option.some.injEq] at hcur2
    subst hcur2
    exact h.current_fields cur hcur
  · intro _
    exact hcc
  · intro _
    exact h.fc_le (by rw [hcur]; rfl)

lemma packInv_setDescription (st : PackState) (c : Str) (cur : Embed)
    (hcur : st.current = some cur) (h : PackInv st)
    (ht : optLen cur.description = 0)
    (hcc : st.charCount + c.length ≤ DISCORD_LIMITS.EMBED_TOTAL_CHARS) :
    PackInv (setDescription c st) := by
  rw [setDescription_eq st cur c hcur]
  constructor
  · exact h.committed_cost
  · exact h.committed_fields
  · intro cur2 hcur2
    simp only [Option.some.injEq] at hcur2
    subst hcur2
    rw [embedCost_set_description cur c ht, h.current_cost cur hcur]
  · intro cur2 hcur2
    simp only [Option.some.injEq] at hcur2
    subst hcur2
    exact h.current_fields cur hcur
  · intro _
    exact hcc
  · intro _
    exact h.fc_le (by rw [hcur]; rfl)

lemma packInv_setFooter (st : PackState) (c : Str) (cur : Embed)
    (hcur : st.current = some cur) (h : PackInv st)
    (ht : optLen cur.footer = 0)
    (hcc : st.charCount + c.length ≤ DISCORD_LIMITS.EMBED_TOTAL_CHARS) :
    PackInv (setFooter c st) := by
  rw [setFooter_eq st cur c hcur]
  constructor
  · exact h.committed_cost
  · exact h.committed_fields
  · intro cur2 hcur2
    simp only [Option.some.injEq] at hcur2
    subst hcur2
    rw [embedCost_set_footer cur c ht, h.current_cost cur hcur]
  · intro cur2 hcur2
    simp only [Option.some.injEq] at hcur2
    subst hcur2
    exact h.current_fields cur hcur
  · intro _
    exact hcc
  · intro _
    exact h.fc_le (by rw [hcur]; rfl)

lemma packInv_pushField (st : PackState) (f : EmbedField) (cur : Embed)
    (hcur : st.current = some cur) (h : PackInv st)
    (hfc : st.fieldCount + 1 ≤ DISCORD_LIMITS.EMBED_MAX_FIELDS)
    (hcc : st.charCount + fieldCost f ≤ DISCORD_LIMITS.EMBED_TOTAL_CHARS) :
    PackInv (pushField f st) := by
  rw [pushField_eq st cur f hcur]
  constructor
  · exact h.committed_cost
  · exact h.committed_fields
  · intro cur2 hcur2
    simp only [Option.some.injEq] at hcur2
    subst hcur2
    rw [embedCost_push_field cur f, h.current_cost cur hcur]
  · intro cur2 hcur2
    simp only [Option.some.injEq] at hcur2
    subst hcur2
    simp [h.current_fields cur hcur]
  · intro _
    exact hcc
  · intro _
    exact hfc

lemma packInv_processSegment (lvl : Option Level) (ts alertId : Str)
    (hid : alertId.length = 36) (st : PackState) (seg : Segment)
    (hlen : segLen seg ≤ 4000) (h : PackInv st) :
    PackInv (processSegment lvl ts alertId st seg) := by
  cases seg with
  | title c =>
    have hc4 : c.length ≤ 4000 := hlen
    have h1 : PackInv (ensureOpen lvl ts alertId st) :=
      packInv_ensureOpen lvl ts alertId hid st h
    obtain ⟨cur1, hcur1⟩ :=
      Option.isSome_iff_exists.mp (ensureOpen_current_isSome lvl ts alertId st)
    simp only [processSegment]
    by_cases hcond : jsTruthy ((ensureOpen lvl ts alertId st).current.bind Embed.title) =
        true ∨ (ensureOpen lvl ts alertId st).charCount + c.length >
          DISCORD_LIMITS.EMBED_TOTAL_CHARS
    · rw [if_pos hcond]
      apply packInv_setTitle _ c (freshEmbed lvl ts alertId) rfl
        (packInv_startNewEmbed lvl ts alertId hid _ (packInv_commitEmbed _ h1)) rfl
      show alertIdFieldName.length + alertId.length + c.length ≤
        DISCORD_LIMITS.EMBED_TOTAL_CHARS
      rw [alertIdFieldName_length, hid, EMBED_TOTAL_CHARS_eq]
      omega
    · rw [if_neg hcond]
      push_neg at hcond
      obtain ⟨hA, hB⟩ := hcond
      apply packInv_setTitle _ c cur1 hcur1 h1
      · apply optLen_of_not_truthy
        rw [hcur1] at hA
        simpa using hA
      · omega
  | description c =>
    have hc4 : c.length ≤ 4000 := hlen
    have h1 : PackInv (ensureOpen lvl ts alertId st) :=
      packInv_ensureOpen lvl ts alertId hid st h
    obtain ⟨cur1, hcur1⟩ :=
      Option.isSome_iff_exists.mp (ensureOpen_current_isSome lvl ts alertId st)
    simp only [processSegment]
    by_cases hcond : jsTruthy ((ensureOpen lvl ts alertId st).current.bind
        Embed.description) = true ∨
        (ensureOpen lvl ts alertId st).charCount + c.length >
          DISCORD_LIMITS.EMBED_TOTAL_CHARS
    · rw [if_pos hcond]
      apply packInv_setDescription _ c (freshEmbed lvl ts alertId) rfl
        (packInv_startNewEmbed lvl ts alertId hid _ (packInv_commitEmbed _ h1)) rfl
      show alertIdFieldName.length + alertId.length + c.length ≤
        DISCORD_LIMITS.EMBED_TOTAL_CHARS
      rw [alertIdFieldName_length, hid, EMBED_TOTAL_CHARS_eq]
      omega
    · rw [if_neg hcond]
      push_neg at hcond
      obtain ⟨hA, hB⟩ := hcond
      apply packInv_setDescription _ c cur1 hcur1 h1
      · apply optLen_of_not_truthy
        rw [hcur1] at hA
        simpa using hA
      · omega
  | footer c =>
    have hc4 : c.length ≤ 4000 := hlen
    have h1 : PackInv (ensureOpen lvl ts alertId st) :=
      packInv_ensureOpen lvl ts alertId hid st h
    obtain ⟨cur1, hcur1⟩ :=
      Option.isSome_iff_exists.mp (ensureOpen_current_isSome lvl ts alertId st)
    simp only [processSegment]
    by_cases hcond : ((ensureOpen lvl ts alertId st).current.bind Embed.footer).isSome =
        true ∨ (ensureOpen lvl ts alertId st).charCount + c.length >
          DISCORD_LIMITS.EMBED_TOTAL_CHARS
    · rw [if_pos hcond]
      apply packInv_setFooter _ c (freshEmbed lvl ts alertId) rfl
        (packInv_startNewEmbed lvl ts alertId hid _ (packInv_commitEmbed _ h1)) rfl
      show alertIdFieldName.length + alertId.length + c.length ≤
        DISCORD_LIMITS.EMBED_TOTAL_CHARS
      rw [alertIdFieldName_length, hid, EMBED_TOTAL_CHARS_eq]
      omega
    · rw [if_neg hcond]
      push_neg at hcond
      obtain ⟨hA, hB⟩ := hcond
      apply packInv_setFooter _ c cur1 hcur1 h1
      · apply optLen_of_isSome_false
        rw [hcur1] at hA
        simpa using hA
      · omega
  | field f =>
    have hf4 : fieldCost f ≤ 4000 := hlen
    simp only [processSegment]
    by_cases hcond : st.current = none ∨
        st.fieldCount ≥ DISCORD_LIMITS.EMBED_MAX_FIELDS ∨
        st.charCount + fieldCost f > DISCORD_LIMITS.EMBED_TOTAL_CHARS
    · rw [if_pos hcond]
      apply packInv_pushField _ f (freshEmbed lvl ts alertId) rfl
        (packInv_startNewEmbed lvl ts alertId hid _ (packInv_commitEmbed st h))
      · show (1 : Nat) + 1 ≤ DISCORD_LIMITS.EMBED_MAX_FIELDS
        rw [EMBED_MAX_FIELDS_eq]
        omega
      · show alertIdFieldName.length + alertId.length + fieldCost f ≤
          DISCORD_LIMITS.EMBED_TOTAL_CHARS
        rw [alertIdFieldName_length, hid, EMBED_TOTAL_CHARS_eq]
        omega
    · rw [if_neg hcond]
      push_neg at hcond
      obtain ⟨hne, hfc, hcc⟩ := hcond
      obtain ⟨cur, hcur⟩ := Option.ne_none_iff_exists'.mp hne
      apply packInv_pushField st f cur hcur h
      · rw [EMBED_MAX_FIELDS_eq] at hfc ⊢
        omega
      · exact hcc

lemma packInv_foldl (lvl : Option Level) (ts alertId : Str)
    (hid : alertId.length = 36) :
    ∀ (segs : List Segment) (st : PackState),
      (∀ s ∈ segs, segLen s ≤ 4000) → PackInv st →
      PackInv (segs.foldl (processSegment lvl ts alertId) st) := by
  intro segs
  induction segs with
  | nil =>
    intro st _ h
    exact h
  | cons sg ss ih =>
    intro st hb h
    rw [List.foldl_cons]
    exact ih (processSegment lvl ts alertId st sg)
      (fun x hx => hb x (List.mem_cons_of_mem sg hx))
      (packInv_processSegment lvl ts alertId hid st sg
        (hb sg (List.mem_cons_self sg ss)) h)

lemma mem_titlePart (o : Option Str) (sfx : Str) (s : Segment)
    (hs : s ∈ titlePart o sfx) :
    ∃ t, s = Segment.title (truncate t DISCORD_LIMITS.TITLE sfx) := by
  unfold titlePart at hs
  split at hs
  · split_ifs at hs <;> simp at hs
    exact ⟨_, hs⟩
  · simp at hs

lemma mem_footerPart (o : Option Str) (sfx : Str) (s : Segment)
    (hs : s ∈ footerPart o sfx) :
    ∃ t, s = Segment.footer (truncate t DISCORD_LIMITS.FOOTER sfx) := by
  unfold footerPart at hs
  split at hs
  · split_ifs at hs <;> simp at hs
    exact ⟨_, hs⟩
  · simp at hs

lemma mem_fieldsPart (ctx : Option (List (Str × Str))) (sfx : Str)
    (f : EmbedField) (hf : f ∈ fieldsPart ctx sfx) :
    ∃ kv : Str × Str,
      f = EmbedField.mk (truncate kv.1 DISCORD_LIMITS.FIELD_NAME sfx)
            (truncate kv.2 DISCORD_LIMITS.FIELD_VALUE sfx) := by
  unfold fieldsPart at hf
  split at hf
  · simp at hf
  · obtain ⟨kv, _, rfl⟩ := List.mem_map.mp hf
    exact ⟨kv, rfl⟩

lemma toSegments_segLen_le (alert : AlertInput) (sfx : Str)
    (hs : sfx.length ≤ DISCORD_LIMITS.TITLE) :
    ∀ s ∈ toSegments alert sfx, segLen s ≤ 4000 := by
  have hs200 : sfx.length ≤ 200 := by rw [TITLE_eq] at hs; exact hs
  intro s hmem
  unfold toSegments at hmem
  rcases List.mem_append.mp hmem with hmem | hfoot
  · rcases List.mem_append.mp hmem with hmem | hfield
    · rcases List.mem_append.mp hmem with htit | hdesc
      · obtain ⟨t, rfl⟩ := mem_titlePart alert.title sfx s htit
        have ht := truncate_length_le t DISCORD_LIMITS.TITLE sfx hs
        have hT : DISCORD_LIMITS.TITLE ≤ 4000 := by decide
        show (truncate t DISCORD_LIMITS.TITLE sfx).length ≤ 4000
        omega
      · obtain ⟨c, hc, rfl⟩ := List.mem_map.mp hdesc
        have hcl := chunk_length_le _ _ c hc
        have hD : DISCORD_LIMITS.DESCRIPTION ≤ 4000 := by decide
        show c.length ≤ 4000
        omega
    · obtain ⟨f, hf, rfl⟩ := List.mem_map.mp hfield
      obtain ⟨kv, rfl⟩ := mem_fieldsPart alert.context sfx f hf
      have h1 := truncate_length_le kv.1 DISCORD_LIMITS.FIELD_NAME sfx
        (by rw [FIELD_NAME_eq]; omega)
      have h2 := truncate_length_le kv.2 DISCORD_LIMITS.FIELD_VALUE sfx
        (by rw [FIELD_VALUE_eq]; omega)
      have hN : DISCORD_LIMITS.FIELD_NAME = 240 := rfl
      have hV : DISCORD_LIMITS.FIELD_VALUE = 1000 := rfl
      show (truncate kv.1 DISCORD_LIMITS.FIELD_NAME sfx).length +
        (truncate kv.2 DISCORD_LIMITS.FIELD_VALUE sfx).length ≤ 4000
      omega
  · obtain ⟨t, rfl⟩ := mem_footerPart alert.footer sfx s hfoot
    have ht := truncate_length_le t DISCORD_LIMITS.FOOTER sfx
      (by rw [FOOTER_eq]; omega)
    have hF : DISCORD_LIMITS.FOOTER ≤ 4000 := by decide
    show (truncate t DISCORD_LIMITS.FOOTER sfx).length ≤ 4000
    omega

lemma titleCount_le_one (e : Embed) : titleCount e ≤ 1 := by
  unfold titleCount
  split <;> omega

lemma descriptionCount_le_one (e : Embed) : descriptionCount e ≤ 1 := by
  unfold descriptionCount
  split <;> omega

lemma footerCount_le_one (e : Embed) : footerCount e ≤ 1 := by
  unfold footerCount
  split <;> omega

/-- C3: for every alert and every truncation suffix no longer than the
smallest per-part budget (the 200-character title budget), every produced
container has total character cost (title + description + footer + all field
names and values, correlation field included) at most the 5900-char budget,
at most 25 fields, and at most one title, one description and one footer.
The correlation identifier is a `randomUUID()` value, hence 36 characters. -/
theorem c3_pack_invariants (alert : AlertInput) (sfx alertId ts : Str)
    (hs : sfx.length ≤ DISCORD_LIMITS.TITLE) (hid : alertId.length = 36) :
    ∀ e ∈ alertToEmbeds alert sfx alertId ts,
      embedCost e.toEmbed ≤ DISCORD_LIMITS.EMBED_TOTAL_CHARS ∧
      e.toEmbed.fields.length ≤ DISCORD_LIMITS.EMBED_MAX_FIELDS ∧
      titleCount e.toEmbed ≤ 1 ∧ descriptionCount e.toEmbed ≤ 1 ∧
      footerCount e.toEmbed ≤ 1 := by
  intro e he
  have h2 := packInv_commitEmbed _
    (packInv_foldl alert.level ts alertId hid (toSegments alert sfx)
      (PackState.mk [] none 0 0) (toSegments_segLen_le alert sfx hs) packInv_init)
  unfold alertToEmbeds at he
  exact ⟨h2.committed_cost e he, h2.committed_fields e he,
    titleCount_le_one _, descriptionCount_le_one _, footerCount_le_one _⟩

/-- A small sample alert exercising every segment kind. -/
def sampleAlert : AlertInput :=
  AlertInput.mk (some ['t', 'i']) (some ['d', 'e']) (some ['f', 'o'])
    (some [(['k'], ['v']), (['K'], ['V', 'W'])]) (some Level.warn)

/-- C3 witness: the invariants hold for the containers of a concrete alert
with title, description, footer and two context entries. -/
theorem c3_pack_invariants_witness :
    sampleSuffix.length ≤ DISCORD_LIMITS.TITLE ∧ sampleAlertId.length = 36 ∧
    ∀ e ∈ alertToEmbeds sampleAlert sampleSuffix sampleAlertId sampleTs,
      embedCost e.toEmbed ≤ DISCORD_LIMITS.EMBED_TOTAL_CHARS ∧
      e.toEmbed.fields.length ≤ DISCORD_LIMITS.EMBED_MAX_FIELDS ∧
      titleCount e.toEmbed ≤ 1 ∧ descriptionCount e.toEmbed ≤ 1 ∧
      footerCount e.toEmbed ≤ 1 :=
  ⟨by decide, by decide,
   c3_pack_invariants sampleAlert sampleSuffix sampleAlertId sampleTs
     (by decide) (by decide)⟩

lemma processSegment_field_push (lvl : Option Level) (ts alertId : Str)
    (acc : List EmbedWithCharCount) (cur : Embed) (cc fc : Nat) (f : EmbedField)
    (hfc : fc < DISCORD_LIMITS.EMBED_MAX_FIELDS)
    (hcc : cc + fieldCost f ≤ DISCORD_LIMITS.EMBED_TOTAL_CHARS) :
    processSegment lvl ts alertId (PackState.mk acc (some cur) cc fc)
        (Segment.field f) =
      PackState.mk acc (some { cur with fields := cur.fields ++ [f] })
        (cc + fieldCost f) (fc + 1) := by
  simp only [processSegment]
  split
  · rename_i hcond
    exfalso
    rcases hcond with hc | hc | hc
    · exact Option.noConfusion (show (some cur : Option Embed) = none from hc)
    · have hc2 : fc ≥ DISCORD_LIMITS.EMBED_MAX_FIELDS := hc
      omega
    · have hc2 : cc + fieldCost f > DISCORD_LIMITS.EMBED_TOTAL_CHARS := hc
      omega
  · rfl

lemma processSegment_field_commit (lvl : Option Level) (ts alertId : Str)
    (acc : List EmbedWithCharCount) (cur : Embed) (cc fc : Nat) (f : EmbedField)
    (hfc : fc ≥ DISCORD_LIMITS.EMBED_MAX_FIELDS) :
    processSegment lvl ts alertId (PackState.mk acc (some cur) cc fc)
        (Segment.field f) =
      PackState.mk (acc ++ [EmbedWithCharCount.mk cur cc])
        (some (Embed.mk (getColorForLevel lvl) ts none none none
          [EmbedField.mk alertIdFieldName alertId, f]))
        (alertIdFieldName.length + alertId.length + fieldCost f) 2 := by
  simp only [processSegment]
  rw [if_pos (Or.inr (Or.inl hfc))]
  rfl

lemma processSegment_field_first (lvl : Option Level) (ts alertId : Str)
    (f : EmbedField) :
    processSegment lvl ts alertId (PackState.mk [] none 0 0) (Segment.field f) =
      PackState.mk [] (some (Embed.mk (getColorForLevel lvl) ts none none none
          [EmbedField.mk alertIdFieldName alertId, f]))
        (alertIdFieldName.length + alertId.length + fieldCost f) 2 := by
  simp only [processSegment]
  rw [if_pos (Or.inl trivial)]
  rfl

/-- Running the packing loop over field segments that all fit (cost at most
244 each) never triggers an overflow commit while the container has room for
them, so it just appends every field to the open container. -/
lemma foldl_fields_fill (lvl : Option Level) (ts alertId : Str) :
    ∀ (l : List EmbedField) (acc : List EmbedWithCharCount) (cur : Embed)
      (cc fc : Nat),
      cc = embedCost cur → fc = cur.fields.length →
      (∀ f ∈ l, fieldCost f ≤ 244) →
      fc + l.length ≤ 25 → 1 ≤ fc →
      cc ≤ 43 + (fc - 1) * 244 →
      (l.map Segment.field).foldl (processSegment lvl ts alertId)
          (PackState.mk acc (some cur) cc fc) =
        PackState.mk acc (some { cur with fields := cur.fields ++ l })
          (cc + (l.map fieldCost).sum) (fc + l.length) := by
  intro l
  induction l with
  | nil =>
    intro acc cur cc fc hcc hfc hb hlen h1 hcost
    simp
  | cons f fs ih =>
    intro acc cur cc fc hcc hfc hb hlen h1 hcost
    obtain ⟨k, rfl⟩ : ∃ k, fc = k + 1 := ⟨fc - 1, by omega⟩
    simp only [Nat.add_sub_cancel] at hcost
    have hf244 : fieldCost f ≤ 244 := hb f (List.mem_cons_self f fs)
    simp only [List.length_cons] at hlen
    have hk23 : k ≤ 23 := by omega
    have hfclt : k + 1 < DISCORD_LIMITS.EMBED_MAX_FIELDS := by
      rw [EMBED_MAX_FIELDS_eq]
      omega
    have hccle : cc + fieldCost f ≤ DISCORD_LIMITS.EMBED_TOTAL_CHARS := by
      rw [EMBED_TOTAL_CHARS_eq]
      have hkb : k * 244 ≤ 23 * 244 := Nat.mul_le_mul_right 244 hk23
      omega
    have hlen2 : k + 1 + 1 + fs.length ≤ 25 := by omega
    have h12 : 1 ≤ k + 1 + 1 := by omega
    have hcost2 : cc + fieldCost f ≤ 43 + (k + 1 + 1 - 1) * 244 := by
      simp only [Nat.add_sub_cancel]
      have hmul : (k + 1) * 244 = k * 244 + 244 := by ring
      omega
    rw [List.map_cons, List.foldl_cons,
      processSegment_field_push lvl ts alertId acc cur cc (k + 1) f hfclt hccle,
      ih acc { cur with fields := cur.fields ++ [f] } (cc + fieldCost f) (k + 1 + 1)
        (by rw [hcc, embedCost_push_field])
        (by simp [hfc])
        (fun x hx => hb x (List.mem_cons_of_mem f hx))
        hlen2
        h12
        hcost2]
    simp only [List.map_cons, List.sum_cons, List.length_cons,
      PackState.mk.injEq, Option.some.injEq, true_and]
    refine ⟨?_, by omega, by omega⟩
    simp [List.append_assoc]

/-- Thirty context entries with one-character keys and thousand-character
values. -/
def bigPairs : List (Str × Str) :=
  List.replicate 30 (['k'], List.replicate 1000 'v')

/-- Thirty context entries with one-character keys and values. -/
def smallPairs : List (Str × Str) := List.replicate 30 (['k'], ['v'])

set_option maxRecDepth 100000 in
/-- C6 counterexample: with 30 large context entries (each field costing 1001
chars) the Segmenter still emits 30 field segments, but the char budget — not
the 25-field limit — closes every container after 5 context fields
(43 + 6 * 1001 > 5900), so packing yields six containers of 6 fields each:
the first container does not close at 25 fields and more than two containers
are produced. -/
theorem c6_counterexample :
    (toSegments (AlertInput.mk none none none (some bigPairs) none)
        sampleSuffix).length = 30 ∧
    ((alertToEmbeds (AlertInput.mk none none none (some bigPairs) none)
        sampleSuffix sampleAlertId sampleTs).map
      fun e => e.toEmbed.fields.length) = [6, 6, 6, 6, 6, 6] ∧
    ¬ ((alertToEmbeds (AlertInput.mk none none none (some bigPairs) none)
        sampleSuffix sampleAlertId sampleTs).length = 2) := by
  refine ⟨by decide, by decide, by decide⟩

/-- C6 (amended): for every alert with exactly 30 context entries and no
title, description or footer, the Segmenter emits exactly 30 field segments;
provided each entry's key and value fit their per-part budgets and cost at
most 244 characters together (so the aggregate char budget never closes a
container early), the Packer closes the first container at 25 fields (the
correlation field plus 24 context fields), opens a second container holding
the remaining 6 context fields, and both containers carry the correlation
field, with the same value, as their first field. -/
theorem c6_thirty_fields (ctx : List (Str × Str)) (lvl : Option Level)
    (sfx alertId ts : Str) (hid : alertId.length = 36) (hlen : ctx.length = 30)
    (hb : ∀ p ∈ ctx, p.1.length ≤ 240 ∧ p.2.length ≤ 1000 ∧
      p.1.length + p.2.length ≤ 244) :
    (toSegments (AlertInput.mk none none none (some ctx) lvl) sfx).length = 30 ∧
    (∀ s ∈ toSegments (AlertInput.mk none none none (some ctx) lvl) sfx,
      ∃ f, s = Segment.field f) ∧
    ((alertToEmbeds (AlertInput.mk none none none (some ctx) lvl) sfx alertId ts).map
        fun e => e.toEmbed.fields.length) = [25, 7] ∧
    ((alertToEmbeds (AlertInput.mk none none none (some ctx) lvl) sfx alertId ts).map
        fun e => e.toEmbed.fields.head?) =
      [some (EmbedField.mk alertIdFieldName alertId),
       some (EmbedField.mk alertIdFieldName alertId)] := by
  have hfields : fieldsPart (some ctx) sfx =
      ctx.map (fun kv : Str × Str => EmbedField.mk kv.1 kv.2) := by
    unfold fieldsPart
    apply List.map_congr_left
    intro kv hkv
    obtain ⟨h1, h2, _⟩ := hb kv hkv
    rw [truncate_of_le kv.1 DISCORD_LIMITS.FIELD_NAME sfx
        (by rw [FIELD_NAME_eq]; omega),
      truncate_of_le kv.2 DISCORD_LIMITS.FIELD_VALUE sfx
        (by rw [FIELD_VALUE_eq]; omega)]
  have hsegs : toSegments (AlertInput.mk none none none (some ctx) lvl) sfx =
      (ctx.map (fun kv : Str × Str => EmbedField.mk kv.1 kv.2)).map
        Segment.field := by
    show titlePart none sfx ++
      (chunk ((none : Option Str).getD []) DISCORD_LIMITS.DESCRIPTION).map
        Segment.description ++
      (fieldsPart (some ctx) sfx).map Segment.field ++ footerPart none sfx = _
    rw [hfields]
    simp [titlePart, footerPart, chunk, chunkGo]
  have hcount : (toSegments (AlertInput.mk none none none (some ctx) lvl)
      sfx).length = 30 := by
    rw [hsegs]
    simp [hlen]
  have hkinds : ∀ s ∈ toSegments (AlertInput.mk none none none (some ctx) lvl) sfx,
      ∃ f, s = Segment.field f := by
    intro s hs
    rw [hsegs] at hs
    obtain ⟨f, _, rfl⟩ := List.mem_map.mp hs
    exact ⟨f, rfl⟩
  have hbl : ∀ f ∈ ctx.map (fun kv : Str × Str => EmbedField.mk kv.1 kv.2),
      fieldCost f ≤ 244 := by
    intro f hf
    obtain ⟨kv, hkv, rfl⟩ := List.mem_map.mp hf
    obtain ⟨_, _, h3⟩ := hb kv hkv
    show kv.1.length + kv.2.length ≤ 244
    exact h3
  obtain ⟨f1, r, hlcons⟩ : ∃ f1 r,
      ctx.map (fun kv : Str × Str => EmbedField.mk kv.1 kv.2) = f1 :: r := by
    cases hcl : ctx.map (fun kv : Str × Str => EmbedField.mk kv.1 kv.2) with
    | nil =>
      exfalso
      have hh := congrArg List.length hcl
      simp [hlen] at hh
    | cons a b => exact ⟨a, b, rfl⟩
  have hr29 : r.length = 29 := by
    have hh := congrArg List.length hlcons
    simp [hlen] at hh
    omega
  obtain ⟨f25, rB, hdr⟩ : ∃ f25 rB, r.drop 23 = f25 :: rB := by
    cases hdd : r.drop 23 with
    | nil =>
      exfalso
      have hh := congrArg List.length hdd
      simp [List.length_drop, hr29] at hh
    | cons a b => exact ⟨a, b, rfl⟩
  have hA23 : (r.take 23).length = 23 := by
    rw [List.length_take]
    omega
  have hrB5 : rB.length = 5 := by
    have hh := congrArg List.length hdr
    simp [List.length_drop, hr29] at hh
    omega
  have hbr : ∀ f ∈ r, fieldCost f ≤ 244 := by
    intro f hf
    exact hbl f (by rw [hlcons]; exact List.mem_cons_of_mem f1 hf)
  have hbf1 : fieldCost f1 ≤ 244 :=
    hbl f1 (by rw [hlcons]; exact List.mem_cons_self f1 r)
  have hbA : ∀ f ∈ r.take 23, fieldCost f ≤ 244 :=
    fun f hf => hbr f (List.take_subset 23 r hf)
  have hbdrop : ∀ f ∈ r.drop 23, fieldCost f ≤ 244 :=
    fun f hf => hbr f (List.drop_subset 23 r hf)
  have hbf25 : fieldCost f25 ≤ 244 :=
    hbdrop f25 (by rw [hdr]; exact List.mem_cons_self f25 rB)
  have hbrB : ∀ f ∈ rB, fieldCost f ≤ 244 :=
    fun f hf => hbdrop f (by rw [hdr]; exact List.mem_cons_of_mem f25 hf)
  have hrdec : r = r.take 23 ++ (f25 :: rB) := by
    conv_lhs => rw [← List.take_append_drop 23 r]
    rw [hdr]
  have hsegs2 : toSegments (AlertInput.mk none none none (some ctx) lvl) sfx =
      Segment.field f1 :: ((r.take 23).map Segment.field ++
        (Segment.field f25 :: rB.map Segment.field)) := by
    rw [hsegs, hlcons]
    conv_lhs => rw [hrdec]
    simp
  have hcur1cost : alertIdFieldName.length + alertId.length + fieldCost f1 =
      embedCost (Embed.mk (getColorForLevel lvl) ts none none none
        [EmbedField.mk alertIdFieldName alertId, f1]) := by
    simp [embedCost, optLen, fieldCost]
  have hcur3cost : alertIdFieldName.length + alertId.length + fieldCost f25 =
      embedCost (Embed.mk (getColorForLevel lvl) ts none none none
        [EmbedField.mk alertIdFieldName alertId, f25]) := by
    simp [embedCost, optLen, fieldCost]
  have hrun : ∃ n1 n2 : Nat,
      alertToEmbeds (AlertInput.mk none none none (some ctx) lvl) sfx alertId ts =
        [EmbedWithCharCount.mk (Embed.mk (getColorForLevel lvl) ts none none none
            ([EmbedField.mk alertIdFieldName alertId, f1] ++ r.take 23)) n1,
         EmbedWithCharCount.mk (Embed.mk (getColorForLevel lvl) ts none none none
            ([EmbedField.mk alertIdFieldName alertId, f25] ++ rB)) n2] := by
    apply Exists.intro
    apply Exists.intro
    show (commitEmbed
      ((toSegments (AlertInput.mk none none none (some ctx) lvl) sfx).foldl
        (processSegment lvl ts alertId) (PackState.mk [] none 0 0))).embeds = _
    rw [hsegs2, List.foldl_cons, processSegment_field_first lvl ts alertId f1,
      List.foldl_append,
      foldl_fields_fill lvl ts alertId (r.take 23) [] _ _ 2 hcur1cost rfl hbA
        (by omega) (by omega)
        (by rw [alertIdFieldName_length, hid]; omega),
      List.foldl_cons,
      processSegment_field_commit lvl ts alertId _ _ _ _ f25
        (by rw [EMBED_MAX_FIELDS_eq]; omega),
      foldl_fields_fill lvl ts alertId rB _ _ _ 2 hcur3cost rfl hbrB
        (by omega) (by omega)
        (by rw [alertIdFieldName_length, hid]; omega)]
    rfl
  obtain ⟨n1, n2, hes⟩ := hrun
  refine ⟨hcount, hkinds, ?_, ?_⟩
  · rw [hes]
    simp [List.length_append, hA23, hrB5]
  · rw [hes]
    simp

set_option maxRecDepth 4000 in
/-- C6 witness: for 30 one-character context entries the Packer produces two
containers with 25 and 7 fields, each led by the same correlation field. -/
theorem c6_thirty_fields_witness :
    ((alertToEmbeds (AlertInput.mk none none none (some smallPairs) none)
        sampleSuffix sampleAlertId sampleTs).map
      fun e => e.toEmbed.fields.length) = [25, 7] ∧
    ((alertToEmbeds (AlertInput.mk none none none (some smallPairs) none)
        sampleSuffix sampleAlertId sampleTs).map
      fun e => e.toEmbed.fields.head?) =
      [some (EmbedField.mk alertIdFieldName sampleAlertId),
       some (EmbedField.mk alertIdFieldName sampleAlertId)] :=
  ⟨(c6_thirty_fields smallPairs none sampleSuffix sampleAlertId sampleTs
      (by decide) (by decide) (by decide)).2.2.1,
   (c6_thirty_fields smallPairs none sampleSuffix sampleAlertId sampleTs
      (by decide) (by decide) (by decide)).2.2.2⟩

end DiscordAlerts
